import Mathlib

/-!
Verification of the dataset-fetch orchestration logic of the `miblab`
repository (`src/miblab/data.py`) against its natural-language design
specification.

The Python code is shallowly embedded:

* Local filesystem paths are modelled as lists of path segments
  (`Path := List String`); `os.path.join(folder, name)` appends one segment.
* The local filesystem is a `FS`: a list of regular files (path and byte
  content, contents modelled as `String`) and a list of directories.
* The network is an oracle `net : String → NetResult` mapping a URL to
  either a connection-level failure (`requests.exceptions.ConnectionError`)
  or an HTTP response with a status code and a body.
* Each fetch function additionally returns the updated filesystem and the
  number of network requests attempted, so that "performs no network
  request" and "performs no filesystem modification" become statements
  about the returned state.
-/

set_option autoImplicit false

namespace Miblab

/-- A local filesystem path, as a list of path segments.
`os.path.join(folder, name)` is `folder ++ [name]`. -/
abbrev Path := List String

/-- Append a single name to a folder path; models `os.path.join(folder, name)`
for a plain file or directory name. -/
def pathJoin (folder : Path) (name : String) : Path := folder ++ [name]

/-- Lower-case a string character by character; models Python's
`s.lower()` for the ASCII names used here. -/
def strLower (s : String) : String := String.mk (s.toList.map Char.toLower)

/-- Does `s` end with `t`?  Models Python's `s.endswith(t)`. -/
def strEndsWith (s t : String) : Bool := t.toList.isSuffixOf s.toList

/-- Split on `'/'`; models Python's `s.split('/')` (so the empty string
yields `[""]`, and doubled separators yield empty segments). -/
def splitSlashAux : List Char → List Char → List String
  | [], acc => [String.mk acc.reverse]
  | c :: rest, acc =>
    if c = '/' then String.mk acc.reverse :: splitSlashAux rest []
    else splitSlashAux rest (c :: acc)

/-- Split a string on `'/'`. -/
def splitSlash (s : String) : List String := splitSlashAux s.toList []

/-- The local filesystem: regular files with their contents, and directories.
New files and directories are prepended; a lookup takes the first match. -/
structure FS where
  files : List (Path × String)
  dirs : List Path
deriving DecidableEq

/-- The empty filesystem. -/
def FS.empty : FS := ⟨[], []⟩

/-- Is there a regular file at `p`?  Models `os.path.isfile`. -/
def FS.hasFile (fs : FS) (p : Path) : Bool :=
  fs.files.any (fun f => decide (f.1 = p))

/-- Does `p` exist as a file or a directory?  Models `os.path.exists`. -/
def FS.existsPath (fs : FS) (p : Path) : Bool :=
  fs.hasFile p || decide (p ∈ fs.dirs)

/-- Content of the file at `p` (first match), empty if absent. -/
def FS.content (fs : FS) (p : Path) : String :=
  ((fs.files.find? (fun f => decide (f.1 = p))).map (fun f => f.2)).getD ""

/-- Create directory `d` if absent; models `os.makedirs(d, exist_ok=True)`. -/
def FS.makedirs (fs : FS) (d : Path) : FS :=
  if d ∈ fs.dirs then fs else { fs with dirs := d :: fs.dirs }

/-- Write (or overwrite) the file at `p`; models `open(p,'wb')` + `write`. -/
def FS.writeFile (fs : FS) (p : Path) (c : String) : FS :=
  { fs with files := (p, c) :: fs.files }

/-- Outcome of a single `requests.get(url)` call: either a connection-level
error or an HTTP response with status code and body. -/
inductive NetResult where
  | connErr
  | ok (status : Nat) (content : String)
deriving DecidableEq

/-- The error taxonomy of the fetchers, following §7 of the spec:
`unknownDataset` is the `ValueError` of `zenodo_fetch` for a dataset outside
`DATASETS`; `unknownGroup` is the `ValueError` of `rat_fetch` (payload: the
valid group names); `connectionFailure` is a raised
`ConnectionError`; `remoteRequestFailure` is the `HTTPError` raised by
`response.raise_for_status()` for a status ≥ 400. -/
inductive FetchError where
  | unknownDataset
  | unknownGroup (valid : List String)
  | connectionFailure
  | remoteRequestFailure (status : Nat)
deriving DecidableEq

/-- The `DATASETS` table of `data.py`: dataset name ↦ Zenodo DOI
(`DOI['MRR'] = "15285017"`, `DOI['TRISTAN'] = "15301607"`). -/
def DATASETS : List (String × String) :=
  [("KRUK.dmr.zip", "15285017"),
   ("tristan_humans_healthy_controls.dmr.zip", "15301607"),
   ("tristan_humans_healthy_ciclosporin.dmr.zip", "15301607"),
   ("tristan_humans_healthy_metformin.dmr.zip", "15301607"),
   ("tristan_humans_healthy_rifampicin.dmr.zip", "15301607"),
   ("tristan_humans_patients_rifampicin.dmr.zip", "15301607"),
   ("tristan_rats_healthy_multiple_dosing.dmr.zip", "15301607"),
   ("tristan_rats_healthy_reproducibility.dmr.zip", "15301607"),
   ("tristan_rats_healthy_six_drugs.dmr.zip", "15301607")]

/-- `DOI['RAT']` of `data.py`. -/
def ratDOI : String := "10675642"

/-- Embedding of `zenodo_fetch(dataset, folder, doi, filename)`.
Returns the result (path or error), the filesystem after the call, and the
number of network requests attempted.  Mirrors `data.py` lines 36–113:
target path, early return if the target exists, DOI lookup in `DATASETS`,
GET with `ConnectionError` translation, `raise_for_status`, folder
creation, file write. -/
def zenodo_fetch (net : String → NetResult) (dataset : String) (folder : Path)
    (doi : Option String) (filename : Option String) (fs : FS) :
    (Except FetchError Path) × FS × Nat :=
  let file := pathJoin folder (filename.getD dataset)
  if fs.existsPath file then (.ok file, fs, 0)
  else
    match (match doi with
           | some d => some d
           | none => (DATASETS.find? (fun p => decide (p.1 = dataset))).map (fun p => p.2)) with
    | none => (.error .unknownDataset, fs, 0)
    | some d =>
      let url := "https://zenodo.org/records/" ++ d ++ "/files/" ++ dataset
      match net url with
      | .connErr => (.error .connectionFailure, fs, 1)
      | .ok status content =>
        if 400 ≤ status then (.error (.remoteRequestFailure status), fs, 1)
        else
          let fs1 := if fs.existsPath folder then fs else { fs with dirs := folder :: fs.dirs }
          (.ok file, fs1.writeFile file content, 1)

/-- The per-file body of the download loop of `rat_fetch`
(`data.py` lines 350–370): skip if present, GET, and — unlike
`zenodo_fetch` — wrap *any* failure (connection error or non-2xx status)
into a `ConnectionError`. -/
def rat_fetch_file (net : String → NetResult) (doi : String) (folder : Path)
    (fname : String) (fs : FS) : (Except FetchError Path) × FS × Nat :=
  let url := "https://zenodo.org/records/" ++ doi ++ "/files/" ++ fname
  let out := pathJoin folder fname
  if fs.existsPath out then (.ok out, fs, 0)
  else
    match net url with
    | .connErr => (.error .connectionFailure, fs, 1)
    | .ok status content =>
      if 400 ≤ status then (.error .connectionFailure, fs, 1)
      else (.ok out, fs.writeFile out content, 1)

/-- The inner loop of `rat_fetch` over one group's file list, accumulating
paths; an error aborts the whole loop (fail-fast). -/
def rat_files (net : String → NetResult) (doi : String) (folder : Path) :
    List String → FS → List Path → Nat → (Except FetchError (List Path)) × FS × Nat
  | [], fs, acc, n => (.ok acc, fs, n)
  | fname :: rest, fs, acc, n =>
    match rat_fetch_file net doi folder fname fs with
    | (.ok out, fs1, k) => rat_files net doi folder rest fs1 (acc ++ [out]) (n + k)
    | (.error e, fs1, k) => (.error e, fs1, n + k)

/-- The outer loop of `rat_fetch` over the selected groups. -/
def rat_groups (net : String → NetResult) (doi : String) (folder : Path) :
    List (String × List String) → FS → List Path → Nat →
    (Except FetchError (List Path)) × FS × Nat
  | [], fs, acc, n => (.ok acc, fs, n)
  | g :: rest, fs, acc, n =>
    match rat_files net doi folder g.2 fs acc n with
    | (.ok acc1, fs1, n1) => rat_groups net doi folder rest fs1 acc1 n1
    | (.error e, fs1, n1) => (.error e, fs1, n1)

/-- Embedding of `rat_fetch(dataset, folder, doi)` (`data.py` lines 285–372),
parametrised by the registry `RAT_PROJECTS` (an ordered association list of
group name ↦ file list).  `dataset = none` or the empty string defaults to
`"bosentan_highdose"`; `"all"` (case-insensitive) selects every group in
registry order; any other name must be a registry key, else the
`ValueError` listing the valid group names is raised before the destination
folder is created and before any request. -/
def rat_fetch (net : String → NetResult) (registry : List (String × List String))
    (dataset : Option String) (folder : Path) (doi : Option String) (fs : FS) :
    (Except FetchError (List Path)) × FS × Nat :=
  let ds := match dataset with
    | none => "bosentan_highdose"
    | some s => if s = "" then "bosentan_highdose" else s
  match (if strLower ds = "all" then
           (Except.ok registry : Except FetchError (List (String × List String)))
         else match registry.find? (fun g : String × List String => decide (g.1 = ds)) with
           | some g => Except.ok [g]
           | none => Except.error (FetchError.unknownGroup (registry.map (fun g => g.1)))) with
  | .error e => (.error e, fs, 0)
  | .ok groups =>
    let d := match doi with
      | none => ratDOI
      | some s => if s = "" then ratDOI else s
    rat_groups net d folder groups (fs.makedirs folder) [] 0

/-- Modelled from the spec: the registry `RAT_PROJECTS` is defined in
`rat.py`, which is not among the sources; the spec and the docstrings name
the default group `bosentan_highdose` and a further group `relaxivity`,
each an ordered list of ZIP filenames on the RAT Zenodo record. -/
def RAT_PROJECTS_model : List (String × List String) :=
  [("bosentan_highdose", ["S01.zip", "S02.zip"]),
   ("relaxivity", ["R01.zip"])]

/-- A remote OSF storage folder: its name, its direct child files (name and
content), and its child subfolders.  Mirrors the osfclient view used by
`osf_fetch`: `folder.files` and `folder.folders`. -/
inductive RFolder where
  | node (name : String) (rfiles : List (String × String)) (subs : List RFolder)

/-- The name of a remote folder. -/
def RFolder.name : RFolder → String
  | .node n _ _ => n

/-- The direct child files of a remote folder. -/
def RFolder.rfiles : RFolder → List (String × String)
  | .node _ fl _ => fl

/-- The direct child subfolders of a remote folder. -/
def RFolder.subs : RFolder → List RFolder
  | .node _ _ s => s

/-- Strip leading and trailing `'/'` characters; models Python's
`s.strip('/')`. -/
def stripSlashes (s : String) : String :=
  String.mk (((s.toList.dropWhile (fun c => c = '/')).reverse.dropWhile
    (fun c => c = '/')).reverse)

/-- One descent step per path segment (`data.py` lines 157–164): linear
search of the current folder's child folders for the segment name; the
first miss raises `FileNotFoundError` naming the segment and the full
requested path. -/
def navigateParts (full : String) : List String → RFolder → Except (String × String) RFolder
  | [], cur => .ok cur
  | part :: rest, cur =>
    match cur.subs.find? (fun f => decide (f.name = part)) with
    | some f => navigateParts full rest f
    | none => .error (part, full)

/-- Resolve the `dataset` path inside the project storage (`data.py`
lines 154–164).  An empty string (falsy in Python) means the storage root. -/
def navigate (storage : RFolder) (dataset : String) : Except (String × String) RFolder :=
  if dataset = "" then .ok storage
  else navigateParts dataset (splitSlash (stripSlashes dataset)) storage

/-- Download the direct child files of one remote folder (`data.py`
lines 169–178).  `wfail p = true` means `file.write_to` raises at local
path `p`; the exception is caught: the half-open local file remains (empty
content) and a warning for `p` is recorded, and iteration continues. -/
def downloadFiles (wfail : Path → Bool) :
    List (String × String) → Path → FS → List Path → FS × List Path
  | [], _, fs, ws => (fs, ws)
  | (n, c) :: rest, lf, fs, ws =>
    let lp := pathJoin lf n
    if wfail lp then downloadFiles wfail rest lf (fs.writeFile lp "") (ws ++ [lp])
    else downloadFiles wfail rest lf (fs.writeFile lp c) ws

mutual

/-- The recursive `download(current_folder, local_folder)` of `osf_fetch`
(`data.py` lines 167–182): create the local directory, download the direct
child files, then recurse into every subfolder under an identically-named
local subdirectory. -/
def download (wfail : Path → Bool) : RFolder → Path → FS → List Path → FS × List Path
  | .node _ fl sf, lf, fs, ws =>
    let fs1 := fs.makedirs lf
    let r := downloadFiles wfail fl lf fs1 ws
    downloadSubs wfail sf lf r.1 r.2

/-- The `for subfolder in current_folder.folders:` loop of `download`. -/
def downloadSubs (wfail : Path → Bool) : List RFolder → Path → FS → List Path → FS × List Path
  | [], _, fs, ws => (fs, ws)
  | sub :: rest, lf, fs, ws =>
    let r := download wfail sub (pathJoin lf sub.name) fs ws
    downloadSubs wfail rest lf r.1 r.2

end

mutual

/-- The local paths (with contents) that the recursive download maps a
remote folder's file tree to, in traversal order. -/
def treeFiles : RFolder → Path → List (Path × String)
  | .node _ fl sf, lf =>
    fl.map (fun f => (pathJoin lf f.1, f.2)) ++ treeFilesSubs sf lf

/-- `treeFiles` over a list of subfolders. -/
def treeFilesSubs : List RFolder → Path → List (Path × String)
  | [], _ => []
  | sub :: rest, lf => treeFiles sub (pathJoin lf sub.name) ++ treeFilesSubs rest lf

end

/-- `filename[:-4]`: the archive name with its `.zip` extension stripped. -/
def stripZip (fname : String) : String :=
  String.mk (fname.toList.take (fname.toList.length - 4))

/-- The names of the regular files directly inside directory `d`. -/
def FS.filesIn (fs : FS) (d : Path) : List String :=
  fs.files.filterMap (fun f => if f.1.dropLast = d then f.1.getLast? else none)

/-- Process one directory entry of the extraction walk (`data.py`
lines 188–204): if the name ends (case-insensitively) in `.zip`, create
the extraction directory `dirpath/filename[:-4]`, then test the archive and
extract.  `zipOk zp = false` means `testzip`/`extractall` fails at archive
path `zp`: the exception is caught, a warning is recorded and the archive
is kept.  On success the entries (relative path and content, given by the
oracle `entries`) are written under the extraction directory and the
archive file is deleted. -/
def extractOne (zipOk : Path → Bool) (entries : Path → List (Path × String))
    (d : Path) (fname : String) (fs : FS) (ws : List Path) : FS × List Path :=
  if strEndsWith (strLower fname) ".zip" then
    let zp := pathJoin d fname
    let et := pathJoin d (stripZip fname)
    let fs1 := fs.makedirs et
    if zipOk zp then
      ({ fs1 with files :=
          ((entries zp).map (fun e => (et ++ e.1, e.2))) ++
            fs1.files.filter (fun f => decide (f.1 ≠ zp)) }, ws)
    else (fs1, ws ++ [zp])
  else (fs, ws)

/-- The `for filename in filenames:` loop of the extraction walk. -/
def extractFilesInDir (zipOk : Path → Bool) (entries : Path → List (Path × String))
    (d : Path) : List String → FS → List Path → FS × List Path
  | [], fs, ws => (fs, ws)
  | f :: rest, fs, ws =>
    let r := extractOne zipOk entries d f fs ws
    extractFilesInDir zipOk entries d rest r.1 r.2

/-- The `for dirpath, _, filenames in os.walk(folder):` loop, over a
snapshot of directories with their file lists. -/
def extractDirs (zipOk : Path → Bool) (entries : Path → List (Path × String)) :
    List (Path × List String) → FS → List Path → FS × List Path
  | [], fs, ws => (fs, ws)
  | (d, fl) :: rest, fs, ws =>
    let r := extractFilesInDir zipOk entries d fl fs ws
    extractDirs zipOk entries rest r.1 r.2

/-- The directory walk snapshot at the start of the extraction phase: each
directory with the names of its direct files.  `os.walk` lists each
directory's entries lazily when it reaches it; since extraction writes
files only into the extraction directories it has just created — which were
not in any already-listed directory list — the walk processes exactly the
directories and files present when the phase starts. -/
def snapshot (fs : FS) : List (Path × List String) :=
  fs.dirs.map (fun d => (d, fs.filesIn d))

/-- The archive paths in the extraction-phase snapshot. -/
def snapshotZips (fs : FS) : List Path :=
  ((snapshot fs).map (fun p =>
    ((p.2.filter (fun f => strEndsWith (strLower f) ".zip")).map (fun f => pathJoin p.1 f)))).flatten

/-- The local paths that extracting the archive `d/f` writes its entries to. -/
def entryPaths (entries : Path → List (Path × String)) (d : Path) (f : String) : List Path :=
  (entries (pathJoin d f)).map (fun e => (pathJoin d (stripZip f)) ++ e.1)

/-- The `extract` phase of `osf_fetch` (`data.py` lines 186–204). -/
def extractPass (zipOk : Path → Bool) (entries : Path → List (Path × String))
    (fs : FS) : FS × List Path :=
  extractDirs zipOk entries (snapshot fs) fs []

/-- Embedding of `osf_fetch(dataset, folder, project, token, extract)`
(`data.py` lines 115–205).  The remote project storage is the tree
`storage`; `wfail`, `zipOk` and `entries` are the per-file download-failure,
archive-integrity and archive-content oracles.  Returns the result (the
destination folder on success, or the `FileNotFoundError` payload — missing
segment and requested path), the filesystem, and the warnings. -/
def osf_fetch (wfail : Path → Bool) (zipOk : Path → Bool)
    (entries : Path → List (Path × String)) (storage : RFolder)
    (dataset : String) (folder : Path) (extract : Bool) (fs : FS) :
    (Except (String × String) Path) × FS × List Path :=
  let fs1 := fs.makedirs folder
  match navigate storage dataset with
  | .error e => (.error e, fs1, [])
  | .ok current =>
    let r := download wfail current folder fs1 []
    if extract then
      let r2 := extractPass zipOk entries r.1
      (.ok folder, r2.1, r.2 ++ r2.2)
    else (.ok folder, r.1, r.2)

/-- The OSF project storage as seen by `osf_upload`: the flat list
`storage.files` of remote files, each with its full path (leading `'/'`
included, as osfclient reports it) and content. -/
structure Storage where
  rfiles : List (String × String)
deriving DecidableEq

/-- Error taxonomy of `osf_upload` (§4.4, §7 of the spec). -/
inductive UploadError where
  | localFileNotFound
  | overwriteFailed
  | uploadFailed
deriving DecidableEq

/-- Embedding of `osf_upload(folder, dataset, project, token, verbose,
overwrite)` (`data.py` lines 207–283).  `folder` is the local file,
`dataset` the remote path.  `removeOk`/`createOk` model whether
`existing.remove()` / `storage.create_file(...)` succeed.  Returns the
result, the remote storage after the call, the number of attempted
`remove()` calls and the number of attempted `create_file` calls.  The
local path is a single-segment `Path` here only through `localFS`; the
remote path is kept as the string `"/" ++ dataset.strip("/")`. -/
def osf_upload (removeOk createOk : Bool) (localFS : FS) (folder : Path)
    (dataset : String) (overwrite : Bool) (st : Storage) :
    (Except UploadError Unit) × Storage × Nat × Nat :=
  if localFS.hasFile folder = false then (.error .localFileNotFound, st, 0, 0)
  else
    let full_path := stripSlashes dataset
    match st.rfiles.find? (fun f => decide (f.1 = "/" ++ full_path)) with
    | some _ =>
      if overwrite then
        if removeOk then
          let st1 : Storage := ⟨st.rfiles.filter (fun f => decide (f.1 ≠ "/" ++ full_path))⟩
          if createOk then
            (.ok (), ⟨("/" ++ full_path, localFS.content folder) :: st1.rfiles⟩, 1, 1)
          else (.error .uploadFailed, st1, 1, 1)
        else (.error .overwriteFailed, st, 1, 0)
      else (.ok (), st, 0, 0)
    | none =>
      if createOk then
        (.ok (), ⟨("/" ++ full_path, localFS.content folder) :: st.rfiles⟩, 0, 1)
      else (.error .uploadFailed, st, 0, 1)

/-- Stated from the spec, for the refinement claim about the Grouped
Fetcher: the per-file outcome of the Single-File Fetcher with the HTTP
status distinction collapsed — a `remoteRequestFailure` is reported as a
`connectionFailure` instead. -/
def collapseHTTPError : (Except FetchError Path) × FS × Nat → (Except FetchError Path) × FS × Nat
  | (.error (.remoteRequestFailure _), fs, n) => (.error .connectionFailure, fs, n)
  | r => r

/-- A network on which every request fails at the connection level. -/
def netDown : String → NetResult := fun _ => NetResult.connErr

/-- A network on which every request succeeds with status 200. -/
def netUp : String → NetResult := fun _ => NetResult.ok 200 "bytes"

/-- A network on which every request returns HTTP 404. -/
def net404 : String → NetResult := fun _ => NetResult.ok 404 "not found"

theorem hasFile_writeFile_self (fs : FS) (p : Path) (c : String) :
    (fs.writeFile p c).hasFile p = true := by
  simp [FS.writeFile, FS.hasFile]

theorem existsPath_of_hasFile {fs : FS} {p : Path} (h : fs.hasFile p = true) :
    fs.existsPath p = true := by
  simp [FS.existsPath, h]

theorem zenodo_fetch_of_exists (net : String → NetResult) (dataset : String)
    (folder : Path) (doi filename : Option String) (fs : FS)
    (h : fs.existsPath (pathJoin folder (filename.getD dataset)) = true) :
    zenodo_fetch net dataset folder doi filename fs
      = (.ok (pathJoin folder (filename.getD dataset)), fs, 0) := by
  simp [zenodo_fetch, h]

/-- C1: if the target file already exists, `zenodo_fetch` returns that path
at once, with the filesystem untouched and zero network requests; and when
a call succeeds it made at most one request (exactly one if the target was
absent), while an immediately repeated call with the same arguments returns
the same path with zero further requests and no filesystem change — so two
identical calls from a fresh state perform exactly one request in total. -/
theorem zenodo_fetch_idempotent (net : String → NetResult) (dataset : String)
    (folder : Path) (doi filename : Option String) (fs : FS) :
    (fs.existsPath (pathJoin folder (filename.getD dataset)) = true →
      zenodo_fetch net dataset folder doi filename fs
        = (.ok (pathJoin folder (filename.getD dataset)), fs, 0))
    ∧ (∀ p fs1 n1, zenodo_fetch net dataset folder doi filename fs = (.ok p, fs1, n1) →
        n1 ≤ 1
        ∧ (fs.existsPath (pathJoin folder (filename.getD dataset)) = false → n1 = 1)
        ∧ zenodo_fetch net dataset folder doi filename fs1 = (.ok p, fs1, 0)) := by
  refine ⟨zenodo_fetch_of_exists net dataset folder doi filename fs, ?_⟩
  intro p fs1 n1 h
  by_cases hex : fs.existsPath (pathJoin folder (filename.getD dataset)) = true
  · rw [zenodo_fetch_of_exists net dataset folder doi filename fs hex] at h
    simp only [Prod.mk.injEq, Except.ok.injEq] at h
    obtain ⟨hp, hfs, hn⟩ := h
    subst hp; subst hfs; subst hn
    exact ⟨Nat.zero_le 1, fun hf => absurd hex (by simp [hf]),
      zenodo_fetch_of_exists net dataset folder doi filename fs hex⟩
  · simp only [zenodo_fetch] at h
    rw [if_neg hex] at h
    split at h
    · exact absurd h (by simp)
    · split at h
      · exact absurd h (by simp)
      · rename_i status content hnet
        by_cases hst : 400 ≤ status
        · rw [if_pos hst] at h
          exact absurd h (by simp)
        · rw [if_neg hst] at h
          simp only [Prod.mk.injEq, Except.ok.injEq] at h
          obtain ⟨hp, hfs, hn⟩ := h
          subst hp; subst hfs; subst hn
          exact ⟨Nat.le_refl 1, fun _ => rfl,
            zenodo_fetch_of_exists net dataset folder doi filename _
              (existsPath_of_hasFile (hasFile_writeFile_self _ _ _))⟩

/-- Witness for C1: on an all-200 network, after a first fresh fetch of
`KRUK.dmr.zip` (which made exactly one request and wrote the file), the
identical second call returns the same path with zero requests and an
unchanged filesystem. -/
theorem zenodo_fetch_idempotent_witness :
    zenodo_fetch netUp "KRUK.dmr.zip" ["dl"] none none
        ⟨[(["dl", "KRUK.dmr.zip"], "bytes")], [["dl"]]⟩
      = (.ok ["dl", "KRUK.dmr.zip"],
          ⟨[(["dl", "KRUK.dmr.zip"], "bytes")], [["dl"]]⟩, 0) :=
  ((zenodo_fetch_idempotent netUp "KRUK.dmr.zip" ["dl"] none none FS.empty).2
    ["dl", "KRUK.dmr.zip"] ⟨[(["dl", "KRUK.dmr.zip"], "bytes")], [["dl"]]⟩ 1 (by rfl)).2.2

/-- C9: the local-existence check of `zenodo_fetch` precedes dataset
validation — with no DOI supplied and any dataset name (registered or not),
if the target file exists the call returns it with no error and no network
request. -/
theorem zenodo_fetch_local_check_first (net : String → NetResult)
    (dataset : String) (folder : Path) (filename : Option String) (fs : FS)
    (hex : fs.existsPath (pathJoin folder (filename.getD dataset)) = true) :
    zenodo_fetch net dataset folder none filename fs
      = (.ok (pathJoin folder (filename.getD dataset)), fs, 0) :=
  zenodo_fetch_of_exists net dataset folder none filename fs hex

/-- Witness for C9: `"not_in_registry.zip"` is absent from `DATASETS`, no
DOI is supplied, and the network is down, yet since the file exists locally
the call succeeds with zero requests and no `unknownDataset` error. -/
theorem zenodo_fetch_local_check_first_witness :
    (DATASETS.find? (fun p => decide (p.1 = "not_in_registry.zip")) = none)
    ∧ zenodo_fetch netDown "not_in_registry.zip" ["dl"] none none
        ⟨[(["dl", "not_in_registry.zip"], "x")], []⟩
      = (.ok ["dl", "not_in_registry.zip"],
          ⟨[(["dl", "not_in_registry.zip"], "x")], []⟩, 0) :=
  ⟨by rfl, zenodo_fetch_local_check_first netDown "not_in_registry.zip" ["dl"] none
    ⟨[(["dl", "not_in_registry.zip"], "x")], []⟩ (by rfl)⟩

theorem rat_fetch_file_ok_path {net : String → NetResult} {doi : String} {folder : Path}
    {fname : String} {fs : FS} {out : Path} {fs1 : FS} {k : Nat}
    (h : rat_fetch_file net doi folder fname fs = (.ok out, fs1, k)) :
    out = pathJoin folder fname := by
  simp only [rat_fetch_file] at h
  split at h
  · simp only [Prod.mk.injEq, Except.ok.injEq] at h
    exact h.1.symm
  · split at h
    · exact absurd h (by simp)
    · split at h
      · exact absurd h (by simp)
      · simp only [Prod.mk.injEq, Except.ok.injEq] at h
        exact h.1.symm

theorem rat_files_ok_paths (net : String → NetResult) (doi : String) (folder : Path) :
    ∀ (files : List String) (fs : FS) (acc : List Path) (n : Nat)
      (paths : List Path) (fs1 : FS) (n1 : Nat),
      rat_files net doi folder files fs acc n = (.ok paths, fs1, n1) →
      paths = acc ++ files.map (pathJoin folder)
  | [], fs, acc, n, paths, fs1, n1, h => by
    simp only [rat_files, Prod.mk.injEq, Except.ok.injEq] at h
    simp [h.1.symm]
  | fname :: rest, fs, acc, n, paths, fs1, n1, h => by
    simp only [rat_files] at h
    split at h
    · rename_i out fs2 k heq
      have hout := rat_fetch_file_ok_path heq
      have ih := rat_files_ok_paths net doi folder rest fs2 (acc ++ [out]) _ paths fs1 n1 h
      subst hout
      simp [ih]
    · exact absurd h (by simp)

theorem rat_groups_ok_paths (net : String → NetResult) (doi : String) (folder : Path) :
    ∀ (gs : List (String × List String)) (fs : FS) (acc : List Path) (n : Nat)
      (paths : List Path) (fs1 : FS) (n1 : Nat),
      rat_groups net doi folder gs fs acc n = (.ok paths, fs1, n1) →
      paths = acc ++ (gs.map (fun g => g.2.map (pathJoin folder))).flatten
  | [], fs, acc, n, paths, fs1, n1, h => by
    simp only [rat_groups, Prod.mk.injEq, Except.ok.injEq] at h
    simp [h.1.symm]
  | g :: rest, fs, acc, n, paths, fs1, n1, h => by
    simp only [rat_groups] at h
    split at h
    · rename_i acc1 fs2 n2 heq
      have h1 := rat_files_ok_paths net doi folder g.2 fs acc n acc1 fs2 n2 heq
      have ih := rat_groups_ok_paths net doi folder rest fs2 acc1 n2 paths fs1 n1 h
      rw [ih, h1]
      simp
    · exact absurd h (by simp)

/-- C2: whenever `rat_fetch` with a group name equal to `"all"`
(case-insensitively) returns successfully, the returned paths are exactly
the files of every registry group, group by group in registry order, so
their number is the sum of the sizes of all groups in the registry. -/
theorem rat_fetch_all_expands (net : String → NetResult)
    (registry : List (String × List String)) (s : String) (folder : Path)
    (doi : Option String) (fs : FS) (paths : List Path) (fs1 : FS) (n1 : Nat)
    (hall : strLower s = "all")
    (hok : rat_fetch net registry (some s) folder doi fs = (.ok paths, fs1, n1)) :
    paths = (registry.map (fun g => g.2.map (pathJoin folder))).flatten
    ∧ paths.length = (registry.map (fun g => g.2.length)).sum := by
  have hs : s ≠ "" := by
    intro he
    rw [he] at hall
    exact absurd hall (by decide)
  simp only [rat_fetch, if_neg hs, hall, if_pos rfl] at hok
  have hpaths := rat_groups_ok_paths net _ folder registry (fs.makedirs folder) [] 0
    paths fs1 n1 hok
  simp only [List.nil_append] at hpaths
  refine ⟨hpaths, ?_⟩
  rw [hpaths]
  simp [List.length_flatten, Function.comp_def]

/-- Witness for C2: with the modelled two-group registry, `"ALL"` downloads
both groups in registry order; three paths result, the sum of the group
sizes. -/
theorem rat_fetch_all_expands_witness :
    ([["dl", "S01.zip"], ["dl", "S02.zip"], ["dl", "R01.zip"]]
        = (RAT_PROJECTS_model.map (fun g => g.2.map (pathJoin ["dl"]))).flatten)
    ∧ ([["dl", "S01.zip"], ["dl", "S02.zip"], ["dl", "R01.zip"]] : List Path).length
        = (RAT_PROJECTS_model.map (fun g => g.2.length)).sum :=
  rat_fetch_all_expands netUp RAT_PROJECTS_model "ALL" ["dl"] none FS.empty
    [["dl", "S01.zip"], ["dl", "S02.zip"], ["dl", "R01.zip"]]
    ⟨[(["dl", "R01.zip"], "bytes"), (["dl", "S02.zip"], "bytes"),
      (["dl", "S01.zip"], "bytes")], [["dl"]]⟩ 3 (by rfl) (by rfl)

/-- C3 (amended): provided the destination folder exists (the grouped
fetcher creates it before its loop), each per-file step of `rat_fetch` is
exactly the Single-File Fetcher `zenodo_fetch` on that filename — same
returned path for cached and fresh files, same download behaviour and
request count — except that a non-2xx HTTP status is reported as a
`connectionFailure` instead of a `remoteRequestFailure`; and the loop
accumulates the per-file paths in iteration order. -/
theorem rat_file_refines_zenodo (net : String → NetResult) (doi : String)
    (folder : Path) (fname : String) (fs : FS)
    (hdir : fs.existsPath folder = true) :
    rat_fetch_file net doi folder fname fs
      = collapseHTTPError (zenodo_fetch net fname folder (some doi) none fs)
    ∧ (∀ (files : List String) (fs0 : FS) (acc : List Path) (n : Nat)
        (paths : List Path) (fs1 : FS) (n1 : Nat),
        rat_files net doi folder files fs0 acc n = (.ok paths, fs1, n1) →
        paths = acc ++ files.map (pathJoin folder)) := by
  constructor
  · by_cases hex : fs.existsPath (pathJoin folder fname) = true
    · simp [rat_fetch_file, zenodo_fetch, hex, collapseHTTPError]
    · cases hnet : net ("https://zenodo.org/records/" ++ doi ++ "/files/" ++ fname) with
      | connErr => simp [rat_fetch_file, zenodo_fetch, hex, hnet, collapseHTTPError]
      | ok status content =>
        by_cases hst : 400 ≤ status
        · simp [rat_fetch_file, zenodo_fetch, hex, hnet, hst, collapseHTTPError]
        · simp [rat_fetch_file, zenodo_fetch, hex, hnet, hst, hdir, collapseHTTPError]
  · exact fun files fs0 acc n paths fs1 n1 h =>
      rat_files_ok_paths net doi folder files fs0 acc n paths fs1 n1 h

/-- Witness for C3: with the folder present and an all-200 network, the
per-file step of `rat_fetch` and `zenodo_fetch` produce the identical
fresh-download outcome. -/
theorem rat_file_refines_zenodo_witness :
    rat_fetch_file netUp ratDOI ["dl"] "S01.zip" ⟨[], [["dl"]]⟩
      = collapseHTTPError (zenodo_fetch netUp "S01.zip" ["dl"] (some ratDOI) none ⟨[], [["dl"]]⟩) :=
  (rat_file_refines_zenodo netUp ratDOI ["dl"] "S01.zip" ⟨[], [["dl"]]⟩ (by rfl)).1

/-- Counterexample for C3 as stated: on a 404 response the grouped
fetcher's per-file step raises `connectionFailure`, while the Single-File
Fetcher raises `remoteRequestFailure 404` — the error distinction promised
by the claim is not preserved. -/
theorem rat_file_error_distinction_cex :
    (rat_fetch_file net404 ratDOI ["dl"] "S01.zip" FS.empty).1 = .error .connectionFailure
    ∧ (zenodo_fetch net404 "S01.zip" ["dl"] (some ratDOI) none FS.empty).1
        = .error (.remoteRequestFailure 404)
    ∧ FetchError.connectionFailure ≠ FetchError.remoteRequestFailure 404 :=
  ⟨by rfl, by rfl, by simp⟩

/-- C4 (amended): for every *non-empty* group name that is neither `"all"`
(case-insensitively) nor a registry key, `rat_fetch` fails with the
`unknownGroup` error listing the valid group names, with the filesystem
unchanged (no directory created, no file written) and zero network
requests. -/
theorem rat_fetch_unknown_group (net : String → NetResult)
    (registry : List (String × List String)) (s : String) (folder : Path)
    (doi : Option String) (fs : FS)
    (hne : s ≠ "") (hnotall : strLower s ≠ "all")
    (hnokey : registry.find? (fun g => decide (g.1 = s)) = none) :
    rat_fetch net registry (some s) folder doi fs
      = (.error (.unknownGroup (registry.map (fun g => g.1))), fs, 0) := by
  simp only [rat_fetch, if_neg hne, if_neg hnotall, hnokey]

/-- Witness for C4: `"not_a_group"` is rejected with the valid group names
in the payload, with no filesystem change and no request. -/
theorem rat_fetch_unknown_group_witness :
    ("not_a_group" ≠ "" ∧ strLower "not_a_group" ≠ "all"
      ∧ RAT_PROJECTS_model.find? (fun g => decide (g.1 = "not_a_group")) = none)
    ∧ rat_fetch netUp RAT_PROJECTS_model (some "not_a_group") ["dl"] none FS.empty
        = (.error (.unknownGroup ["bosentan_highdose", "relaxivity"]), FS.empty, 0) :=
  ⟨⟨by decide, by decide, by rfl⟩,
    rat_fetch_unknown_group netUp RAT_PROJECTS_model "not_a_group" ["dl"] none FS.empty
      (by decide) (by decide) (by rfl)⟩

/-- Counterexample for C4 as stated: the empty string is a group name that
is neither `"all"` (case-insensitively) nor a key of the registry, yet
`rat_fetch` does not fail with `unknownGroup` — it silently falls back to
the default group `bosentan_highdose` and succeeds. -/
theorem rat_fetch_unknown_group_cex :
    (strLower "" ≠ "all"
      ∧ RAT_PROJECTS_model.find? (fun g => decide (g.1 = "")) = none)
    ∧ (rat_fetch netUp RAT_PROJECTS_model (some "") ["dl"] none FS.empty).1
        = .ok [["dl", "S01.zip"], ["dl", "S02.zip"]] :=
  ⟨⟨by decide, by rfl⟩, by rfl⟩

/-- C8: uploading with `overwrite = false` when a remote file already
exists at the normalized path is a silent no-op: the call succeeds, the
remote storage (hence the existing file's content) is unchanged, and no
`remove()` and no `create_file` call is performed. -/
theorem osf_upload_no_overwrite_noop (removeOk createOk : Bool) (localFS : FS)
    (folder : Path) (dataset : String) (st : Storage)
    (hl : localFS.hasFile folder = true)
    (hex : (st.rfiles.find? (fun f => decide (f.1 = "/" ++ stripSlashes dataset))).isSome
      = true) :
    osf_upload removeOk createOk localFS folder dataset false st = (.ok (), st, 0, 0) := by
  obtain ⟨v, hv⟩ := Option.isSome_iff_exists.mp hex
  simp [osf_upload, hl, hv]

/-- Witness for C8: a remote file at `/Testing/results.csv` exists; the
upload with `overwrite = false` returns successfully, leaves it untouched
and calls neither delete nor create. -/
theorem osf_upload_no_overwrite_noop_witness :
    osf_upload true true ⟨[(["data", "results.csv"], "new")], []⟩ ["data", "results.csv"]
        "Testing/results.csv" false ⟨[("/Testing/results.csv", "old")]⟩
      = (.ok (), ⟨[("/Testing/results.csv", "old")]⟩, 0, 0) :=
  osf_upload_no_overwrite_noop true true ⟨[(["data", "results.csv"], "new")], []⟩
    ["data", "results.csv"] "Testing/results.csv" ⟨[("/Testing/results.csv", "old")]⟩
    (by rfl) (by rfl)

/-- C6: when resolving a non-empty remote path hits a segment that is not
among the current folder's child folders, `osf_fetch` fails with the
`FileNotFoundError` payload naming that segment and the full requested
path, before any file download: no file is written, no warning issued, and
only the destination root directory has been created. -/
theorem osf_fetch_missing_path (wfail zipOk : Path → Bool)
    (entries : Path → List (Path × String)) (storage : RFolder)
    (dataset : String) (folder : Path) (extract : Bool) (fs : FS) (part : String)
    (hnav : navigate storage dataset = .error (part, dataset)) :
    osf_fetch wfail zipOk entries storage dataset folder extract fs
      = (.error (part, dataset), fs.makedirs folder, [])
    ∧ (fs.makedirs folder).files = fs.files
    ∧ dataset ≠ "" := by
  refine ⟨by simp [osf_fetch, hnav], ?_, ?_⟩
  · unfold FS.makedirs
    split <;> rfl
  · intro he
    rw [he] at hnav
    simp [navigate] at hnav

/-- Witness for C6: requesting `"TRISTAN/RAT"` in a project whose
`TRISTAN` folder has no `RAT` subfolder fails with the payload
`("RAT", "TRISTAN/RAT")`, having written no file. -/
theorem osf_fetch_missing_path_witness :
    osf_fetch (fun _ => false) (fun _ => true) (fun _ => [])
        (RFolder.node "osfstorage" [] [RFolder.node "TRISTAN" [("a.txt", "A")] []])
        "TRISTAN/RAT" ["dl"] true FS.empty
      = (.error ("RAT", "TRISTAN/RAT"), FS.empty.makedirs ["dl"], [])
    ∧ (FS.empty.makedirs ["dl"]).files = FS.empty.files
    ∧ "TRISTAN/RAT" ≠ "" :=
  osf_fetch_missing_path (fun _ => false) (fun _ => true) (fun _ => [])
    (RFolder.node "osfstorage" [] [RFolder.node "TRISTAN" [("a.txt", "A")] []])
    "TRISTAN/RAT" ["dl"] true FS.empty "RAT" (by rfl)

theorem hasFile_writeFile_mono {fs : FS} {p q : Path} {c : String}
    (h : fs.hasFile p = true) : (fs.writeFile q c).hasFile p = true := by
  simp only [FS.writeFile, FS.hasFile, List.any_cons] at h ⊢
  simp [h]

theorem hasFile_makedirs (fs : FS) (d : Path) (p : Path) :
    (fs.makedirs d).hasFile p = fs.hasFile p := by
  unfold FS.makedirs
  split <;> rfl

theorem downloadFiles_hasFile_mono (wfail : Path → Bool) :
    ∀ (l : List (String × String)) (lf : Path) (fs : FS) (ws : List Path) (p : Path),
      fs.hasFile p = true → ((downloadFiles wfail l lf fs ws).1).hasFile p = true
  | [], _, _, _, _, h => h
  | (n, c) :: rest, lf, fs, ws, p, h => by
    simp only [downloadFiles]
    split
    · exact downloadFiles_hasFile_mono wfail rest lf _ _ p (hasFile_writeFile_mono h)
    · exact downloadFiles_hasFile_mono wfail rest lf _ _ p (hasFile_writeFile_mono h)

theorem downloadFiles_ws_mono (wfail : Path → Bool) :
    ∀ (l : List (String × String)) (lf : Path) (fs : FS) (ws : List Path) (x : Path),
      x ∈ ws → x ∈ (downloadFiles wfail l lf fs ws).2
  | [], _, _, _, _, h => h
  | (n, c) :: rest, lf, fs, ws, x, h => by
    simp only [downloadFiles]
    split
    · exact downloadFiles_ws_mono wfail rest lf _ _ x (List.mem_append_left _ h)
    · exact downloadFiles_ws_mono wfail rest lf _ _ x h

mutual

theorem download_hasFile_mono (wfail : Path → Bool) :
    ∀ (cur : RFolder) (lf : Path) (fs : FS) (ws : List Path) (p : Path),
      fs.hasFile p = true → ((download wfail cur lf fs ws).1).hasFile p = true
  | .node nm fl sf, lf, fs, ws, p, h => by
    simp only [download]
    exact downloadSubs_hasFile_mono wfail sf lf _ _ p
      (downloadFiles_hasFile_mono wfail fl lf _ _ p ((hasFile_makedirs fs lf p).symm ▸ h))

theorem downloadSubs_hasFile_mono (wfail : Path → Bool) :
    ∀ (l : List RFolder) (lf : Path) (fs : FS) (ws : List Path) (p : Path),
      fs.hasFile p = true → ((downloadSubs wfail l lf fs ws).1).hasFile p = true
  | [], _, _, _, _, h => h
  | sub :: rest, lf, fs, ws, p, h => by
    simp only [downloadSubs]
    exact downloadSubs_hasFile_mono wfail rest lf _ _ p
      (download_hasFile_mono wfail sub (pathJoin lf sub.name) _ _ p h)

end

mutual

theorem download_ws_mono (wfail : Path → Bool) :
    ∀ (cur : RFolder) (lf : Path) (fs : FS) (ws : List Path) (x : Path),
      x ∈ ws → x ∈ (download wfail cur lf fs ws).2
  | .node nm fl sf, lf, fs, ws, x, h => by
    simp only [download]
    exact downloadSubs_ws_mono wfail sf lf _ _ x
      (downloadFiles_ws_mono wfail fl lf _ _ x h)

theorem downloadSubs_ws_mono (wfail : Path → Bool) :
    ∀ (l : List RFolder) (lf : Path) (fs : FS) (ws : List Path) (x : Path),
      x ∈ ws → x ∈ (downloadSubs wfail l lf fs ws).2
  | [], _, _, _, _, h => h
  | sub :: rest, lf, fs, ws, x, h => by
    simp only [downloadSubs]
    exact downloadSubs_ws_mono wfail rest lf _ _ x
      (download_ws_mono wfail sub (pathJoin lf sub.name) _ _ x h)

end

theorem downloadFiles_covers (wfail : Path → Bool) :
    ∀ (l : List (String × String)) (lf : Path) (fs : FS) (ws : List Path)
      (f : String × String), f ∈ l →
      ((downloadFiles wfail l lf fs ws).1).hasFile (pathJoin lf f.1) = true
      ∧ (wfail (pathJoin lf f.1) = true →
          pathJoin lf f.1 ∈ (downloadFiles wfail l lf fs ws).2)
  | [], _, _, _, f, hf => absurd hf (List.not_mem_nil f)
  | (n, c) :: rest, lf, fs, ws, f, hf => by
    rcases List.mem_cons.mp hf with h1 | h2
    · subst h1
      simp only [downloadFiles]
      by_cases hw : wfail (pathJoin lf n) = true
      · rw [if_pos hw]
        refine ⟨downloadFiles_hasFile_mono wfail rest lf _ _ _
          (hasFile_writeFile_self fs (pathJoin lf n) ""), fun _ => ?_⟩
        exact downloadFiles_ws_mono wfail rest lf _ _ _ (by simp)
      · rw [if_neg hw]
        exact ⟨downloadFiles_hasFile_mono wfail rest lf _ _ _
          (hasFile_writeFile_self fs (pathJoin lf n) c), fun hww => absurd hww hw⟩
    · simp only [downloadFiles]
      split
      · exact downloadFiles_covers wfail rest lf _ _ f h2
      · exact downloadFiles_covers wfail rest lf _ _ f h2

mutual

theorem download_covers (wfail : Path → Bool) :
    ∀ (cur : RFolder) (lf : Path) (fs : FS) (ws : List Path) (pc : Path × String),
      pc ∈ treeFiles cur lf →
      ((download wfail cur lf fs ws).1).hasFile pc.1 = true
      ∧ (wfail pc.1 = true → pc.1 ∈ (download wfail cur lf fs ws).2)
  | .node nm fl sf, lf, fs, ws, pc, hmem => by
    simp only [treeFiles, List.mem_append] at hmem
    simp only [download]
    rcases hmem with hfl | hsf
    · obtain ⟨f, hf, hpc⟩ := List.mem_map.mp hfl
      subst hpc
      have hb := downloadFiles_covers wfail fl lf (fs.makedirs lf) ws f hf
      exact ⟨downloadSubs_hasFile_mono wfail sf lf _ _ _ hb.1,
        fun hw => downloadSubs_ws_mono wfail sf lf _ _ _ (hb.2 hw)⟩
    · exact downloadSubs_covers wfail sf lf _ _ pc hsf

theorem downloadSubs_covers (wfail : Path → Bool) :
    ∀ (l : List RFolder) (lf : Path) (fs : FS) (ws : List Path) (pc : Path × String),
      pc ∈ treeFilesSubs l lf →
      ((downloadSubs wfail l lf fs ws).1).hasFile pc.1 = true
      ∧ (wfail pc.1 = true → pc.1 ∈ (downloadSubs wfail l lf fs ws).2)
  | [], _, _, _, pc, hmem => by simp [treeFilesSubs] at hmem
  | sub :: rest, lf, fs, ws, pc, hmem => by
    simp only [treeFilesSubs, List.mem_append] at hmem
    simp only [downloadSubs]
    rcases hmem with h1 | h2
    · have hb := download_covers wfail sub (pathJoin lf sub.name) fs ws pc h1
      exact ⟨downloadSubs_hasFile_mono wfail rest lf _ _ _ hb.1,
        fun hw => downloadSubs_ws_mono wfail rest lf _ _ _ (hb.2 hw)⟩
    · exact downloadSubs_covers wfail rest lf _ _ pc h2

end

/-- C5: per-file download failures in `osf_fetch` never abort the
traversal — whenever path resolution succeeds the call returns the
destination folder (it does not raise), and every file of the remote tree
is attempted: after the download phase a local file exists at each tree
position (the written file, or the half-open empty one left by the caught
exception), and each failed path is reported in the warnings. -/
theorem osf_fetch_partial_failure (wfail zipOk : Path → Bool)
    (entries : Path → List (Path × String)) (storage : RFolder)
    (dataset : String) (folder : Path) (extract : Bool) (fs : FS)
    (current : RFolder) (hnav : navigate storage dataset = .ok current) :
    (osf_fetch wfail zipOk entries storage dataset folder extract fs).1 = .ok folder
    ∧ (∀ pc ∈ treeFiles current folder,
        ((download wfail current folder (fs.makedirs folder) []).1).hasFile pc.1 = true
        ∧ (wfail pc.1 = true →
            pc.1 ∈ (download wfail current folder (fs.makedirs folder) []).2)) := by
  constructor
  · simp only [osf_fetch, hnav]
    cases extract <;> simp
  · exact fun pc h => download_covers wfail current folder (fs.makedirs folder) [] pc h

/-- Witness for C5: in a tree with root files `a.txt` (whose download
fails) and `b.txt`, and `sub/c.txt`, the call still returns the
destination, the two sibling/cousin files are downloaded, and the failed
path is warned about. -/
theorem osf_fetch_partial_failure_witness :
    ((osf_fetch (fun p => decide (p = ["dl", "a.txt"])) (fun _ => true) (fun _ => [])
        (RFolder.node "root" [("a.txt", "A"), ("b.txt", "B")]
          [RFolder.node "sub" [("c.txt", "C")] []])
        "" ["dl"] false FS.empty).1 = .ok ["dl"])
    ∧ ((download (fun p => decide (p = ["dl", "a.txt"]))
        (RFolder.node "root" [("a.txt", "A"), ("b.txt", "B")]
          [RFolder.node "sub" [("c.txt", "C")] []])
        ["dl"] (FS.empty.makedirs ["dl"]) []).1).hasFile ["dl", "b.txt"] = true
    ∧ ((download (fun p => decide (p = ["dl", "a.txt"]))
        (RFolder.node "root" [("a.txt", "A"), ("b.txt", "B")]
          [RFolder.node "sub" [("c.txt", "C")] []])
        ["dl"] (FS.empty.makedirs ["dl"]) []).1).hasFile ["dl", "sub", "c.txt"] = true
    ∧ ["dl", "a.txt"] ∈ (download (fun p => decide (p = ["dl", "a.txt"]))
        (RFolder.node "root" [("a.txt", "A"), ("b.txt", "B")]
          [RFolder.node "sub" [("c.txt", "C")] []])
        ["dl"] (FS.empty.makedirs ["dl"]) []).2 := by
  have h := osf_fetch_partial_failure (fun p => decide (p = ["dl", "a.txt"]))
    (fun _ => true) (fun _ => [])
    (RFolder.node "root" [("a.txt", "A"), ("b.txt", "B")]
      [RFolder.node "sub" [("c.txt", "C")] []])
    "" ["dl"] false FS.empty
    (RFolder.node "root" [("a.txt", "A"), ("b.txt", "B")]
      [RFolder.node "sub" [("c.txt", "C")] []]) (by rfl)
  refine ⟨h.1, (h.2 (["dl", "b.txt"], "B") (by decide)).1,
    (h.2 (["dl", "sub", "c.txt"], "C") (by decide)).1,
    (h.2 (["dl", "a.txt"], "A") (by decide)).2 (by decide)⟩

theorem hasFile_iff {fs : FS} {p : Path} :
    fs.hasFile p = true ↔ ∃ c, (p, c) ∈ fs.files := by
  simp only [FS.hasFile, List.any_eq_true, decide_eq_true_eq]
  constructor
  · rintro ⟨x, hx, he⟩
    exact ⟨x.2, by rwa [← he, Prod.mk.eta]⟩
  · rintro ⟨c, hc⟩
    exact ⟨(p, c), hc, rfl⟩

theorem mem_dirs_makedirs {fs : FS} {p : Path} (d : Path) (h : p ∈ fs.dirs) :
    p ∈ (fs.makedirs d).dirs := by
  unfold FS.makedirs
  split
  · exact h
  · exact List.mem_cons_of_mem d h

theorem mem_makedirs_self (fs : FS) (d : Path) : d ∈ (fs.makedirs d).dirs := by
  unfold FS.makedirs
  split
  · assumption
  · exact List.mem_cons_self d _

theorem makedirs_files (fs : FS) (d : Path) : (fs.makedirs d).files = fs.files := by
  unfold FS.makedirs
  split <;> rfl

theorem eq_dropLast_concat : ∀ {l : List String} {a : String},
    l.getLast? = some a → l = l.dropLast ++ [a]
  | [], a, h => by simp at h
  | [x], a, h => by
    simp only [List.getLast?_singleton, Option.some.injEq] at h
    simp [h]
  | x :: y :: ys, a, h => by
    rw [List.getLast?_cons_cons] at h
    have ih := eq_dropLast_concat (l := y :: ys) h
    calc x :: y :: ys = x :: ((y :: ys).dropLast ++ [a]) := by rw [← ih]
    _ = (x :: y :: ys).dropLast ++ [a] := by simp

theorem hasFile_of_mem_filesIn {fs : FS} {d : Path} {fname : String}
    (h : fname ∈ fs.filesIn d) : fs.hasFile (pathJoin d fname) = true := by
  simp only [FS.filesIn, List.mem_filterMap] at h
  obtain ⟨f, hf, he⟩ := h
  by_cases hd : f.1.dropLast = d
  · rw [if_pos hd] at he
    have hfl : f.1 = pathJoin d fname := by
      rw [pathJoin, ← hd]
      exact eq_dropLast_concat he
    exact hasFile_iff.mpr ⟨f.2, by rwa [← hfl, Prod.mk.eta]⟩
  · rw [if_neg hd] at he
    exact absurd he (by simp)

theorem mem_snapshot_of_mem_dirs {fs : FS} {d : Path} (hd : d ∈ fs.dirs) :
    (d, fs.filesIn d) ∈ snapshot fs :=
  List.mem_map_of_mem (fun d => (d, fs.filesIn d)) hd

theorem mem_snapshotZips {fs : FS} {d : Path} {fls : List String} {f : String}
    (hmem : (d, fls) ∈ snapshot fs) (hf : f ∈ fls)
    (hzip : strEndsWith (strLower f) ".zip" = true) :
    pathJoin d f ∈ snapshotZips fs := by
  simp only [snapshotZips, List.mem_flatten, List.mem_map]
  exact ⟨(fls.filter (fun f => strEndsWith (strLower f) ".zip")).map (pathJoin d),
    ⟨(d, fls), hmem, rfl⟩,
    List.mem_map_of_mem (pathJoin d) (List.mem_filter.mpr ⟨hf, hzip⟩)⟩

theorem list_any_false {α : Type} (p : α → Bool) :
    ∀ (l : List α), (∀ x ∈ l, p x = false) → l.any p = false
  | [], _ => rfl
  | x :: xs, h => by
    simp only [List.any_cons, Bool.or_eq_false_iff]
    exact ⟨h x (List.mem_cons_self x xs),
      list_any_false p xs (fun y hy => h y (List.mem_cons_of_mem x hy))⟩

theorem extractOne_dirs_mono (zipOk : Path → Bool)
    (entries : Path → List (Path × String)) (d' : Path) (f' : String)
    (fs : FS) (ws : List Path) (p : Path) (h : p ∈ fs.dirs) :
    p ∈ ((extractOne zipOk entries d' f' fs ws).1).dirs := by
  by_cases hz : strEndsWith (strLower f') ".zip" = true
  · simp only [extractOne, if_pos hz]
    by_cases hok : zipOk (pathJoin d' f') = true
    · simp only [if_pos hok]
      exact mem_dirs_makedirs _ h
    · simp only [if_neg hok]
      exact mem_dirs_makedirs _ h
  · simp only [extractOne, if_neg hz]
    exact h

theorem extractOne_keeps_failed (zipOk : Path → Bool)
    (entries : Path → List (Path × String)) (d' : Path) (f' : String)
    (fs : FS) (ws : List Path) (zp : Path)
    (hbad : zipOk zp = false) (h : fs.hasFile zp = true) :
    ((extractOne zipOk entries d' f' fs ws).1).hasFile zp = true := by
  by_cases hz : strEndsWith (strLower f') ".zip" = true
  · simp only [extractOne, if_pos hz]
    by_cases hok : zipOk (pathJoin d' f') = true
    · simp only [if_pos hok]
      have hne : zp ≠ pathJoin d' f' := by
        intro hc
        rw [← hc, hbad] at hok
        simp at hok
      obtain ⟨c, hc⟩ := hasFile_iff.mp h
      simp only [FS.hasFile, List.any_append]
      have hright : ((fs.makedirs (pathJoin d' (stripZip f'))).files.filter
          (fun f => decide (f.1 ≠ pathJoin d' f'))).any
          (fun f => decide (f.1 = zp)) = true := by
        simp only [List.any_eq_true, decide_eq_true_eq]
        refine ⟨(zp, c), List.mem_filter.mpr ⟨?_, decide_eq_true hne⟩, rfl⟩
        rw [makedirs_files]
        exact hc
      rw [hright, Bool.or_true]
    · simp only [if_neg hok]
      rw [hasFile_makedirs]
      exact h
  · simp only [extractOne, if_neg hz]
    exact h

theorem extractOne_good_establish (zipOk : Path → Bool)
    (entries : Path → List (Path × String)) (d : Path) (fname : String)
    (fs : FS) (ws : List Path)
    (hzip : strEndsWith (strLower fname) ".zip" = true)
    (hok : zipOk (pathJoin d fname) = true)
    (hself : ∀ q ∈ entryPaths entries d fname, q ≠ pathJoin d fname) :
    pathJoin d (stripZip fname) ∈ ((extractOne zipOk entries d fname fs ws).1).dirs
    ∧ (∀ e ∈ entries (pathJoin d fname),
        ((extractOne zipOk entries d fname fs ws).1).hasFile
          (pathJoin d (stripZip fname) ++ e.1) = true)
    ∧ ((extractOne zipOk entries d fname fs ws).1).hasFile (pathJoin d fname) = false := by
  simp only [extractOne, if_pos hzip, if_pos hok]
  refine ⟨mem_makedirs_self fs (pathJoin d (stripZip fname)), ?_, ?_⟩
  · intro e he
    simp only [FS.hasFile, List.any_append]
    have hleft : ((entries (pathJoin d fname)).map
        (fun e => (pathJoin d (stripZip fname) ++ e.1, e.2))).any
        (fun f => decide (f.1 = pathJoin d (stripZip fname) ++ e.1)) = true := by
      simp only [List.any_eq_true, decide_eq_true_eq]
      exact ⟨(pathJoin d (stripZip fname) ++ e.1, e.2),
        List.mem_map_of_mem _ he, rfl⟩
    rw [hleft, Bool.true_or]
  · simp only [FS.hasFile, List.any_append, Bool.or_eq_false_iff]
    constructor
    · refine list_any_false _ _ ?_
      intro f hf
      obtain ⟨e, he, hfe⟩ := List.mem_map.mp hf
      have hq : pathJoin d (stripZip fname) ++ e.1 ∈ entryPaths entries d fname := by
        simp only [entryPaths, List.mem_map]
        exact ⟨e, he, rfl⟩
      rw [← hfe]
      exact decide_eq_false (hself _ hq)
    · refine list_any_false _ _ ?_
      intro f hf
      have hne := (List.mem_filter.mp hf).2
      simp only [decide_eq_true_eq] at hne
      exact decide_eq_false hne

theorem extractOne_good_mono (zipOk : Path → Bool)
    (entries : Path → List (Path × String)) (d' : Path) (f' : String)
    (fs : FS) (ws : List Path) (zp et : Path) (el : List (Path × String))
    (hq : strEndsWith (strLower f') ".zip" = true →
      ∀ q ∈ entryPaths entries d' f', q ≠ zp)
    (hr : strEndsWith (strLower f') ".zip" = true →
      ∀ e ∈ el, pathJoin d' f' ≠ et ++ e.1)
    (h1 : et ∈ fs.dirs) (h2 : ∀ e ∈ el, fs.hasFile (et ++ e.1) = true)
    (h3 : fs.hasFile zp = false) :
    et ∈ ((extractOne zipOk entries d' f' fs ws).1).dirs
    ∧ (∀ e ∈ el, ((extractOne zipOk entries d' f' fs ws).1).hasFile (et ++ e.1) = true)
    ∧ ((extractOne zipOk entries d' f' fs ws).1).hasFile zp = false := by
  by_cases hz : strEndsWith (strLower f') ".zip" = true
  · simp only [extractOne, if_pos hz]
    by_cases hok : zipOk (pathJoin d' f') = true
    · simp only [if_pos hok]
      refine ⟨mem_dirs_makedirs _ h1, ?_, ?_⟩
      · intro e he
        simp only [FS.hasFile, List.any_append]
        have hne : et ++ e.1 ≠ pathJoin d' f' := fun hc => (hr hz e he) hc.symm
        obtain ⟨c, hc⟩ := hasFile_iff.mp (h2 e he)
        have hright : ((fs.makedirs (pathJoin d' (stripZip f'))).files.filter
            (fun f => decide (f.1 ≠ pathJoin d' f'))).any
            (fun f => decide (f.1 = et ++ e.1)) = true := by
          simp only [List.any_eq_true, decide_eq_true_eq]
          refine ⟨(et ++ e.1, c), List.mem_filter.mpr ⟨?_, decide_eq_true hne⟩, rfl⟩
          rw [makedirs_files]
          exact hc
        rw [hright, Bool.or_true]
      · simp only [FS.hasFile, List.any_append, Bool.or_eq_false_iff]
        constructor
        · refine list_any_false _ _ ?_
          intro f hf
          obtain ⟨e, he, hfe⟩ := List.mem_map.mp hf
          have hqmem : pathJoin d' (stripZip f') ++ e.1 ∈ entryPaths entries d' f' := by
            simp only [entryPaths, List.mem_map]
            exact ⟨e, he, rfl⟩
          rw [← hfe]
          exact decide_eq_false (hq hz _ hqmem)
        · refine list_any_false _ _ ?_
          intro f hf
          have hmemf := (List.mem_filter.mp hf).1
          rw [makedirs_files] at hmemf
          have hne : f.1 ≠ zp := by
            intro hc
            have : fs.hasFile zp = true := hasFile_iff.mpr ⟨f.2, by
              rw [← hc, Prod.mk.eta]
              exact hmemf⟩
            rw [this] at h3
            simp at h3
          exact decide_eq_false hne
    · simp only [if_neg hok]
      refine ⟨mem_dirs_makedirs _ h1, fun e he => ?_, ?_⟩
      · rw [hasFile_makedirs]
        exact h2 e he
      · rw [hasFile_makedirs]
        exact h3
  · simp only [extractOne, if_neg hz]
    exact ⟨h1, h2, h3⟩

theorem extractFilesInDir_good_mono (zipOk : Path → Bool)
    (entries : Path → List (Path × String)) (d' : Path)
    (zp et : Path) (el : List (Path × String)) :
    ∀ (fls : List String) (fs : FS) (ws : List Path),
      (∀ f' ∈ fls, strEndsWith (strLower f') ".zip" = true →
        (∀ q ∈ entryPaths entries d' f', q ≠ zp)
        ∧ (∀ e ∈ el, pathJoin d' f' ≠ et ++ e.1)) →
      et ∈ fs.dirs → (∀ e ∈ el, fs.hasFile (et ++ e.1) = true) →
      fs.hasFile zp = false →
      (et ∈ ((extractFilesInDir zipOk entries d' fls fs ws).1).dirs
       ∧ (∀ e ∈ el,
           ((extractFilesInDir zipOk entries d' fls fs ws).1).hasFile (et ++ e.1) = true)
       ∧ ((extractFilesInDir zipOk entries d' fls fs ws).1).hasFile zp = false)
  | [], _, _, _, h1, h2, h3 => ⟨h1, h2, h3⟩
  | f0 :: rest, fs, ws, hs, h1, h2, h3 => by
    simp only [extractFilesInDir]
    have step := extractOne_good_mono zipOk entries d' f0 fs ws zp et el
      (fun hz => (hs f0 (List.mem_cons_self f0 rest) hz).1)
      (fun hz => (hs f0 (List.mem_cons_self f0 rest) hz).2) h1 h2 h3
    exact extractFilesInDir_good_mono zipOk entries d' zp et el rest _ _
      (fun f' hf' => hs f' (List.mem_cons_of_mem f0 hf')) step.1 step.2.1 step.2.2

theorem extractDirs_good_mono (zipOk : Path → Bool)
    (entries : Path → List (Path × String))
    (zp et : Path) (el : List (Path × String)) :
    ∀ (todo : List (Path × List String)) (fs : FS) (ws : List Path),
      (∀ p ∈ todo, ∀ f' ∈ p.2, strEndsWith (strLower f') ".zip" = true →
        (∀ q ∈ entryPaths entries p.1 f', q ≠ zp)
        ∧ (∀ e ∈ el, pathJoin p.1 f' ≠ et ++ e.1)) →
      et ∈ fs.dirs → (∀ e ∈ el, fs.hasFile (et ++ e.1) = true) →
      fs.hasFile zp = false →
      (et ∈ ((extractDirs zipOk entries todo fs ws).1).dirs
       ∧ (∀ e ∈ el,
           ((extractDirs zipOk entries todo fs ws).1).hasFile (et ++ e.1) = true)
       ∧ ((extractDirs zipOk entries todo fs ws).1).hasFile zp = false)
  | [], _, _, _, h1, h2, h3 => ⟨h1, h2, h3⟩
  | (d0, fl0) :: rest, fs, ws, hs, h1, h2, h3 => by
    simp only [extractDirs]
    have step := extractFilesInDir_good_mono zipOk entries d0 zp et el fl0 fs ws
      (fun f' hf' => hs (d0, fl0) (List.mem_cons_self (d0, fl0) rest) f' hf') h1 h2 h3
    exact extractDirs_good_mono zipOk entries zp et el rest _ _
      (fun p hp => hs p (List.mem_cons_of_mem (d0, fl0) hp)) step.1 step.2.1 step.2.2

theorem extractFilesInDir_good_establish (zipOk : Path → Bool)
    (entries : Path → List (Path × String)) (d : Path) (fname : String)
    (hzip : strEndsWith (strLower fname) ".zip" = true)
    (hok : zipOk (pathJoin d fname) = true)
    (hself : ∀ q ∈ entryPaths entries d fname, q ≠ pathJoin d fname) :
    ∀ (fls : List String) (fs : FS) (ws : List Path),
      fname ∈ fls →
      (∀ f' ∈ fls, strEndsWith (strLower f') ".zip" = true →
        (∀ q ∈ entryPaths entries d f', q ≠ pathJoin d fname)
        ∧ (∀ e ∈ entries (pathJoin d fname),
            pathJoin d f' ≠ pathJoin d (stripZip fname) ++ e.1)) →
      (pathJoin d (stripZip fname) ∈ ((extractFilesInDir zipOk entries d fls fs ws).1).dirs
       ∧ (∀ e ∈ entries (pathJoin d fname),
           ((extractFilesInDir zipOk entries d fls fs ws).1).hasFile
             (pathJoin d (stripZip fname) ++ e.1) = true)
       ∧ ((extractFilesInDir zipOk entries d fls fs ws).1).hasFile (pathJoin d fname) = false)
  | [], _, _, hmem, _ => absurd hmem (List.not_mem_nil fname)
  | f0 :: rest, fs, ws, hmem, hs => by
    simp only [extractFilesInDir]
    rcases List.mem_cons.mp hmem with he | hrest
    · subst he
      have est := extractOne_good_establish zipOk entries d fname fs ws hzip hok hself
      exact extractFilesInDir_good_mono zipOk entries d (pathJoin d fname)
        (pathJoin d (stripZip fname)) (entries (pathJoin d fname)) rest _ _
        (fun f' hf' => hs f' (List.mem_cons_of_mem fname hf')) est.1 est.2.1 est.2.2
    · exact extractFilesInDir_good_establish zipOk entries d fname hzip hok hself rest _ _
        hrest (fun f' hf' => hs f' (List.mem_cons_of_mem f0 hf'))

theorem extractDirs_good_establish (zipOk : Path → Bool)
    (entries : Path → List (Path × String)) (d : Path) (fname : String)
    (myfls : List String)
    (hzip : strEndsWith (strLower fname) ".zip" = true)
    (hok : zipOk (pathJoin d fname) = true)
    (hself : ∀ q ∈ entryPaths entries d fname, q ≠ pathJoin d fname) :
    ∀ (todo : List (Path × List String)) (fs : FS) (ws : List Path),
      (d, myfls) ∈ todo → fname ∈ myfls →
      (∀ p ∈ todo, ∀ f' ∈ p.2, strEndsWith (strLower f') ".zip" = true →
        (∀ q ∈ entryPaths entries p.1 f', q ≠ pathJoin d fname)
        ∧ (∀ e ∈ entries (pathJoin d fname),
            pathJoin p.1 f' ≠ pathJoin d (stripZip fname) ++ e.1)) →
      (pathJoin d (stripZip fname) ∈ ((extractDirs zipOk entries todo fs ws).1).dirs
       ∧ (∀ e ∈ entries (pathJoin d fname),
           ((extractDirs zipOk entries todo fs ws).1).hasFile
             (pathJoin d (stripZip fname) ++ e.1) = true)
       ∧ ((extractDirs zipOk entries todo fs ws).1).hasFile (pathJoin d fname) = false)
  | [], _, _, hmem, _, _ => absurd hmem (List.not_mem_nil (d, myfls))
  | (d0, fl0) :: rest, fs, ws, hmem, hf, hs => by
    simp only [extractDirs]
    rcases List.mem_cons.mp hmem with he | hrest
    · injection he with h1 h2
      subst h1
      subst h2
      have est := extractFilesInDir_good_establish zipOk entries d fname hzip hok hself
        myfls fs ws hf
        (fun f' hf' => hs (d, myfls) (List.mem_cons_self (d, myfls) rest) f' hf')
      exact extractDirs_good_mono zipOk entries (pathJoin d fname)
        (pathJoin d (stripZip fname)) (entries (pathJoin d fname)) rest _ _
        (fun p hp => hs p (List.mem_cons_of_mem (d, myfls) hp)) est.1 est.2.1 est.2.2
    · exact extractDirs_good_establish zipOk entries d fname myfls hzip hok hself rest _ _
        hrest hf (fun p hp => hs p (List.mem_cons_of_mem (d0, fl0) hp))

theorem extractFilesInDir_keeps_failed (zipOk : Path → Bool)
    (entries : Path → List (Path × String)) (d' : Path) (zp : Path)
    (hbad : zipOk zp = false) :
    ∀ (fls : List String) (fs : FS) (ws : List Path),
      fs.hasFile zp = true →
      ((extractFilesInDir zipOk entries d' fls fs ws).1).hasFile zp = true
  | [], _, _, h => h
  | f0 :: rest, fs, ws, h => by
    simp only [extractFilesInDir]
    exact extractFilesInDir_keeps_failed zipOk entries d' zp hbad rest _ _
      (extractOne_keeps_failed zipOk entries d' f0 fs ws zp hbad h)

theorem extractDirs_keeps_failed (zipOk : Path → Bool)
    (entries : Path → List (Path × String)) (zp : Path)
    (hbad : zipOk zp = false) :
    ∀ (todo : List (Path × List String)) (fs : FS) (ws : List Path),
      fs.hasFile zp = true →
      ((extractDirs zipOk entries todo fs ws).1).hasFile zp = true
  | [], _, _, h => h
  | (d0, fl0) :: rest, fs, ws, h => by
    simp only [extractDirs]
    exact extractDirs_keeps_failed zipOk entries zp hbad rest _ _
      (extractFilesInDir_keeps_failed zipOk entries d0 zp hbad fl0 fs ws h)

theorem extractFilesInDir_dirs_mono (zipOk : Path → Bool)
    (entries : Path → List (Path × String)) (d' : Path) (p : Path) :
    ∀ (fls : List String) (fs : FS) (ws : List Path),
      p ∈ fs.dirs → p ∈ ((extractFilesInDir zipOk entries d' fls fs ws).1).dirs
  | [], _, _, h => h
  | f0 :: rest, fs, ws, h => by
    simp only [extractFilesInDir]
    exact extractFilesInDir_dirs_mono zipOk entries d' p rest _ _
      (extractOne_dirs_mono zipOk entries d' f0 fs ws p h)

theorem extractDirs_dirs_mono (zipOk : Path → Bool)
    (entries : Path → List (Path × String)) (p : Path) :
    ∀ (todo : List (Path × List String)) (fs : FS) (ws : List Path),
      p ∈ fs.dirs → p ∈ ((extractDirs zipOk entries todo fs ws).1).dirs
  | [], _, _, h => h
  | (d0, fl0) :: rest, fs, ws, h => by
    simp only [extractDirs]
    exact extractDirs_dirs_mono zipOk entries p rest _ _
      (extractFilesInDir_dirs_mono zipOk entries d0 p fl0 fs ws h)

theorem extractFilesInDir_bad_establish (zipOk : Path → Bool)
    (entries : Path → List (Path × String)) (d : Path) (fname : String)
    (hzip : strEndsWith (strLower fname) ".zip" = true)
    (hbad : zipOk (pathJoin d fname) = false) :
    ∀ (fls : List String) (fs : FS) (ws : List Path),
      fname ∈ fls → fs.hasFile (pathJoin d fname) = true →
      (pathJoin d (stripZip fname) ∈ ((extractFilesInDir zipOk entries d fls fs ws).1).dirs
       ∧ ((extractFilesInDir zipOk entries d fls fs ws).1).hasFile (pathJoin d fname) = true)
  | [], _, _, hmem, _ => absurd hmem (List.not_mem_nil fname)
  | f0 :: rest, fs, ws, hmem, h => by
    simp only [extractFilesInDir]
    rcases List.mem_cons.mp hmem with he | hrest
    · subst he
      have hstep : extractOne zipOk entries d fname fs ws
          = (fs.makedirs (pathJoin d (stripZip fname)), ws ++ [pathJoin d fname]) := by
        simp only [extractOne, if_pos hzip]
        rw [if_neg (by simp [hbad])]
      rw [hstep]
      constructor
      · exact extractFilesInDir_dirs_mono zipOk entries d _ rest _ _
          (mem_makedirs_self fs _)
      · refine extractFilesInDir_keeps_failed zipOk entries d _ hbad rest _ _ ?_
        rw [hasFile_makedirs]
        exact h
    · exact extractFilesInDir_bad_establish zipOk entries d fname hzip hbad rest _ _ hrest
        (extractOne_keeps_failed zipOk entries d f0 fs ws _ hbad h)

theorem extractDirs_bad_establish (zipOk : Path → Bool)
    (entries : Path → List (Path × String)) (d : Path) (fname : String)
    (myfls : List String)
    (hzip : strEndsWith (strLower fname) ".zip" = true)
    (hbad : zipOk (pathJoin d fname) = false) :
    ∀ (todo : List (Path × List String)) (fs : FS) (ws : List Path),
      (d, myfls) ∈ todo → fname ∈ myfls → fs.hasFile (pathJoin d fname) = true →
      (pathJoin d (stripZip fname) ∈ ((extractDirs zipOk entries todo fs ws).1).dirs
       ∧ ((extractDirs zipOk entries todo fs ws).1).hasFile (pathJoin d fname) = true)
  | [], _, _, hmem, _, _ => absurd hmem (List.not_mem_nil (d, myfls))
  | (d0, fl0) :: rest, fs, ws, hmem, hf, h => by
    simp only [extractDirs]
    rcases List.mem_cons.mp hmem with he | hrest
    · injection he with h1 h2
      subst h1
      subst h2
      have est := extractFilesInDir_bad_establish zipOk entries d fname hzip hbad
        myfls fs ws hf h
      exact ⟨extractDirs_dirs_mono zipOk entries _ rest _ _ est.1,
        extractDirs_keeps_failed zipOk entries _ hbad rest _ _ est.2⟩
    · exact extractDirs_bad_establish zipOk entries d fname myfls hzip hbad rest _ _
        hrest hf (extractFilesInDir_keeps_failed zipOk entries d0 _ hbad fl0 fs ws h)

/-- C7: after the extraction phase, every archive of the pre-extraction
destination tree (a regular file ending case-insensitively in `.zip`)
whose integrity check and extraction succeed has been replaced: the
sibling directory named after the archive with its extension stripped
exists, it contains the archive's entries, and the archive file itself is
gone.  The non-interference hypothesis `hni` states that no archive's
entries extract onto the path of an archive of the snapshot. -/
theorem osf_extract_replaces_archive (zipOk : Path → Bool)
    (entries : Path → List (Path × String)) (fs : FS) (d : Path) (fname : String)
    (hd : d ∈ fs.dirs) (hf : fname ∈ fs.filesIn d)
    (hzip : strEndsWith (strLower fname) ".zip" = true)
    (hok : zipOk (pathJoin d fname) = true)
    (hni : ∀ p ∈ snapshot fs, ∀ g ∈ p.2, strEndsWith (strLower g) ".zip" = true →
        ∀ q ∈ entryPaths entries p.1 g, q ∉ snapshotZips fs) :
    pathJoin d (stripZip fname) ∈ ((extractPass zipOk entries fs).1).dirs
    ∧ (∀ e ∈ entries (pathJoin d fname),
        ((extractPass zipOk entries fs).1).hasFile
          (pathJoin d (stripZip fname) ++ e.1) = true)
    ∧ ((extractPass zipOk entries fs).1).hasFile (pathJoin d fname) = false := by
  have hmem : (d, fs.filesIn d) ∈ snapshot fs := mem_snapshot_of_mem_dirs hd
  have hzp : pathJoin d fname ∈ snapshotZips fs := mem_snapshotZips hmem hf hzip
  have hself : ∀ q ∈ entryPaths entries d fname, q ≠ pathJoin d fname := by
    intro q hq he
    exact absurd (show q ∈ snapshotZips fs by rw [he]; exact hzp)
      (hni _ hmem fname hf hzip q hq)
  have hs : ∀ p ∈ snapshot fs, ∀ f' ∈ p.2, strEndsWith (strLower f') ".zip" = true →
      (∀ q ∈ entryPaths entries p.1 f', q ≠ pathJoin d fname)
      ∧ (∀ e ∈ entries (pathJoin d fname),
          pathJoin p.1 f' ≠ pathJoin d (stripZip fname) ++ e.1) := by
    intro p hp f' hf' hz
    constructor
    · intro q hq he
      exact absurd (show q ∈ snapshotZips fs by rw [he]; exact hzp)
        (hni p hp f' hf' hz q hq)
    · intro e he heq
      have h1 : pathJoin p.1 f' ∈ snapshotZips fs := mem_snapshotZips hp hf' hz
      have h2 : pathJoin d (stripZip fname) ++ e.1 ∈ entryPaths entries d fname := by
        simp only [entryPaths, List.mem_map]
        exact ⟨e, he, rfl⟩
      exact absurd (show pathJoin d (stripZip fname) ++ e.1 ∈ snapshotZips fs by
          rw [← heq]; exact h1)
        (hni _ hmem fname hf hzip _ h2)
  exact extractDirs_good_establish zipOk entries d fname (fs.filesIn d) hzip hok hself
    (snapshot fs) fs [] hmem hf hs

/-- Witness for C7: the spec's example — `dl/data.zip` containing
`inner.csv` becomes `dl/data/inner.csv` and `dl/data.zip` is gone. -/
theorem osf_extract_replaces_archive_witness :
    (["dl", "data"] ∈ ((extractPass (fun _ => true)
        (fun p => if p = ["dl", "data.zip"] then [(["inner.csv"], "I")] else [])
        ⟨[(["dl", "data.zip"], "Z")], [["dl"]]⟩).1).dirs)
    ∧ ((extractPass (fun _ => true)
        (fun p => if p = ["dl", "data.zip"] then [(["inner.csv"], "I")] else [])
        ⟨[(["dl", "data.zip"], "Z")], [["dl"]]⟩).1).hasFile
          ["dl", "data", "inner.csv"] = true
    ∧ ((extractPass (fun _ => true)
        (fun p => if p = ["dl", "data.zip"] then [(["inner.csv"], "I")] else [])
        ⟨[(["dl", "data.zip"], "Z")], [["dl"]]⟩).1).hasFile
          ["dl", "data.zip"] = false := by
  have h := osf_extract_replaces_archive (fun _ => true)
    (fun p => if p = ["dl", "data.zip"] then [(["inner.csv"], "I")] else [])
    ⟨[(["dl", "data.zip"], "Z")], [["dl"]]⟩ ["dl"] "data.zip"
    (by decide) (by decide) (by decide) (by rfl) (by decide)
  exact ⟨h.1, h.2.1 (["inner.csv"], "I") (by decide), h.2.2⟩

/-- C10: for an archive of the pre-extraction tree whose integrity check
or extraction fails, after the extraction phase the original archive file
is still on disk while the (possibly empty) extraction directory exists —
the directory is created before the archive is opened, and the archive is
deleted only after a fully successful extraction. -/
theorem osf_extract_failed_archive_kept (zipOk : Path → Bool)
    (entries : Path → List (Path × String)) (fs : FS) (d : Path) (fname : String)
    (hd : d ∈ fs.dirs) (hf : fname ∈ fs.filesIn d)
    (hzip : strEndsWith (strLower fname) ".zip" = true)
    (hbad : zipOk (pathJoin d fname) = false) :
    pathJoin d (stripZip fname) ∈ ((extractPass zipOk entries fs).1).dirs
    ∧ ((extractPass zipOk entries fs).1).hasFile (pathJoin d fname) = true :=
  extractDirs_bad_establish zipOk entries d fname (fs.filesIn d) hzip hbad
    (snapshot fs) fs [] (mem_snapshot_of_mem_dirs hd) hf (hasFile_of_mem_filesIn hf)

/-- Witness for C10: `dl/data.zip` fails its integrity check; afterwards
the archive is still present and the empty extraction directory `dl/data`
exists. -/
theorem osf_extract_failed_archive_kept_witness :
    (["dl", "data"] ∈ ((extractPass (fun _ => false) (fun _ => [])
        ⟨[(["dl", "data.zip"], "Z")], [["dl"]]⟩).1).dirs)
    ∧ ((extractPass (fun _ => false) (fun _ => [])
        ⟨[(["dl", "data.zip"], "Z")], [["dl"]]⟩).1).hasFile
          ["dl", "data.zip"] = true :=
  osf_extract_failed_archive_kept (fun _ => false) (fun _ => [])
    ⟨[(["dl", "data.zip"], "Z")], [["dl"]]⟩ ["dl"] "data.zip"
    (by decide) (by decide) (by decide) (by rfl)

end Miblab
